import Mathlib

/-!
# Verification of the schema-to-model pipeline (generator-model-sdk)

A shallow embedding of the core of the generator-model-sdk repository:
the utility functions of `src/utils` (isModelObject, inferTypeFromValue,
interpretName), the patternProperties keyword interpreter, and the models
and input-processor behaviour described by the repository's specification
and unit tests.  Definitions are translated from the TypeScript sources;
where a source file is absent from the snapshot (only its tests or its
callers are present) the definition is modelled from the specification and
clearly marked as such in its documentation string.
-/

set_option maxHeartbeats 1000000

namespace GeneratorModelSdk

/-! ## JavaScript values

The functions under verification operate on untyped JavaScript values.
`JSValue` models the JavaScript runtime values a JSON-Schema document can
contain (JSON-legal values plus big integers, which `inferTypeFromValue`
treats specially).  Number payloads are irrelevant to every verified
property, so numbers carry no payload. -/

inductive JSValue where
  | vnull
  | vboolean (b : Bool)
  | vnumber
  | vstring (s : String)
  | varray (items : List JSValue)
  | vobject (fields : List (String × JSValue))
  | vbigint

/-- The JavaScript `typeof` operator on `JSValue`.  Note the JavaScript
quirks: `typeof null` and `typeof` of an array are both `"object"`. -/
def jsTypeof : JSValue → String
  | .vnull => "object"
  | .vboolean _ => "boolean"
  | .vnumber => "number"
  | .vstring _ => "string"
  | .varray _ => "object"
  | .vobject _ => "object"
  | .vbigint => "bigint"

/-- Whether the value is a JavaScript array (`Array.isArray`). -/
def isJsArray : JSValue → Bool
  | .varray _ => true
  | _ => false

/-- Whether the value is the JavaScript `null` (the `value === null` test). -/
def isJsNull : JSValue → Bool
  | .vnull => true
  | _ => false

/-- Translation of `inferTypeFromValue` (src/utils): arrays are reported
first as `"array"`, then `null` as `"null"`, then `bigint` as
`"integer"`, and any other value reports its `typeof`. -/
def inferTypeFromValue (value : JSValue) : String :=
  if isJsArray value then "array"
  else if isJsNull value then "null"
  else
    let typeOfEnum := jsTypeof value
    if typeOfEnum = "bigint" then "integer" else typeOfEnum

/-! ## Name interpretation (`interpretName`, src/utils)

`interpretName` receives an arbitrary schema value (a boolean or an
object); of the object only the three name-bearing attributes matter. -/

/-- The schema argument of `interpretName`: a boolean schema or an object
carrying the three name-bearing attributes (`title`, `$id`, and the
`x-modelgen-inferred-name` extension).  A missing attribute is `none`. -/
inductive NamedSchema where
  | nbool (b : Bool)
  | nobj (title : Option String) (id : Option String) (inferredName : Option String)

/-- JavaScript's `||` on possibly-missing strings: a missing value and the
empty string are falsy, so `a || b` yields `b` whenever `a` is `none` or
`some ""`, and `a` otherwise. -/
def jsOrString : Option String → Option String → Option String
  | some s, b => if s = "" then b else some s
  | none, b => b

/-- Translation of `interpretName` (src/utils): for an object schema it
returns `schema.title || schema.$id || schema[x-modelgen-inferred-name]`;
for a boolean schema it returns `undefined`. -/
def interpretName : NamedSchema → Option String
  | .nobj title id inferredName => jsOrString (jsOrString title id) inferredName
  | .nbool _ => none

/-- The name-precedence function exactly as claim C1 states it (`$id`
first, then `title`, then the extension attribute), written for
comparison against the source's `interpretName`. -/
def interpretNameIdFirst : NamedSchema → Option String
  | .nobj title id inferredName => jsOrString (jsOrString id title) inferredName
  | .nbool _ => none

/-! ## CommonModel and `isModelObject`

`CommonModel` is the pipeline's normalized intermediate form.  Its class
definition (CommonModel.ts) is absent from the snapshot; the fields below
follow the `CommonSchema` base class present in the sources ( `$id`,
`type`, `enum`, `properties`, `patternProperties`, `additionalProperties`,
`required`) plus the `extend` attribute the specification documents for
CommonModel.  A `type` is a single tag or an array of tags, exactly as in
`CommonSchema.type : string | string[]`. -/

inductive ModelType where
  | single (t : String)
  | arr (ts : List String)
  deriving DecidableEq

/-- Normalized intermediate model record (see module comment above). -/
inductive CommonModel where
  | mk (id : Option String) (type : Option ModelType) (enumVals : Option (List JSValue))
       (properties : Option (List (String × CommonModel)))
       (patternProperties : Option (List (String × CommonModel)))
       (additionalProperties : Option CommonModel)
       (required : Option (List String))
       (extend : Option (List String))

def CommonModel.id : CommonModel → Option String
  | .mk i _ _ _ _ _ _ _ => i

def CommonModel.type : CommonModel → Option ModelType
  | .mk _ t _ _ _ _ _ _ => t

def CommonModel.enumVals : CommonModel → Option (List JSValue)
  | .mk _ _ e _ _ _ _ _ => e

def CommonModel.properties : CommonModel → Option (List (String × CommonModel))
  | .mk _ _ _ p _ _ _ _ => p

def CommonModel.patternProperties : CommonModel → Option (List (String × CommonModel))
  | .mk _ _ _ _ pp _ _ _ => pp

def CommonModel.additionalProperties : CommonModel → Option CommonModel
  | .mk _ _ _ _ _ ap _ _ => ap

def CommonModel.required : CommonModel → Option (List String)
  | .mk _ _ _ _ _ _ r _ => r

def CommonModel.extend : CommonModel → Option (List String)
  | .mk _ _ _ _ _ _ _ e => e

/-- JavaScript `String.prototype.includes`: substring containment. -/
def strIncludes (s target : String) : Bool :=
  (List.range (s.length + 1)).any (fun i => target.toList.isPrefixOf (s.toList.drop i))

/-- JavaScript `includes` on a `string | string[]` value: element
membership for an array, substring containment for a single string
(exactly how `model.type.includes('object')` behaves in the source). -/
def typeIncludes : ModelType → String → Bool
  | .single t, target => strIncludes t target
  | .arr ts, target => ts.contains target

/-- The `Array.isArray(model.type) && model.type.length === 7` test. -/
def isSevenEntryArray : ModelType → Bool
  | .arr ts => ts.length = 7
  | .single _ => false

/-- Translation of `isModelObject` (src/utils): if `type` is defined and
is an array of exactly 7 entries the model is not split even if it
contains `object`; otherwise the result is `type.includes('object')`;
an undefined `type` yields `false`. -/
def isModelObject (model : CommonModel) : Bool :=
  match model.type with
  | some ty =>
    if isSevenEntryArray ty then false
    else typeIncludes ty "object"
  | none => false

/-- The object-model classification exactly as claim C2 states it:
`type` includes `object` AND at least one of `properties`, `extend`,
`patternProperties`, `additionalProperties` is present.  Written for
comparison against the source's `isModelObject`. -/
def claimedObjectModel (model : CommonModel) : Bool :=
  (match model.type with
   | some ty => typeIncludes ty "object"
   | none => false) &&
  (model.properties.isSome || model.extend.isSome ||
   model.patternProperties.isSome || model.additionalProperties.isSome)

/-- The seven JSON-Schema type tags, in the order claim C4 lists them. -/
def sevenJsonTypes : List String :=
  ["null", "boolean", "integer", "number", "string", "array", "object"]

/-- Modelled from the spec: the Simplifier (Simplifier.ts is absent from
the snapshot) extracts a child model as a separate object sub-model
exactly when the object-model classification `isModelObject` holds
(specification section 4.4, rule 1). -/
def extractedAsObjectSubModel (model : CommonModel) : Bool :=
  isModelObject model

/-! ## Keyed lists

JavaScript objects used as string-keyed maps (`properties`,
`patternProperties`, `definitions`) are embedded as association lists in
insertion order, matching `Object.entries` iteration order. -/

/-- First value stored under key `k` (JavaScript property read). -/
def lookupKey {α : Type} : List (String × α) → String → Option α
  | [], _ => none
  | (k', v) :: t, k => if k' = k then some v else lookupKey t k

/-- JavaScript property write `m[k] = v`: replaces the value at an
existing key in place, otherwise appends the binding at the end. -/
def setKey {α : Type} : List (String × α) → String → α → List (String × α)
  | [], k, v => [(k, v)]
  | (k', v') :: t, k, v => if k' = k then (k, v) :: t else (k', v') :: setKey t k v

/-! ## Schema documents

`JsonSchema` is the canonical in-memory form of a JSON-Schema draft-07
node, restricted to the attributes the verified components read: `$ref`,
`type`, `properties`, `patternProperties`, `additionalProperties`,
`allOf`, `definitions`, and the `x-modelgen-inferred-name` extension.
A schema value may also be a plain boolean. -/

inductive JsonSchema where
  | jbool (b : Bool)
  | jobj (ref : Option String) (type : Option ModelType)
         (properties : List (String × JsonSchema))
         (patternProperties : List (String × JsonSchema))
         (additionalProperties : Option JsonSchema)
         (allOf : List JsonSchema)
         (definitions : List (String × JsonSchema))
         (inferredName : Option String)

def JsonSchema.refOf : JsonSchema → Option String
  | .jbool _ => none
  | .jobj r _ _ _ _ _ _ _ => r

def JsonSchema.typeOf : JsonSchema → Option ModelType
  | .jbool _ => none
  | .jobj _ t _ _ _ _ _ _ => t

def JsonSchema.propertiesOf : JsonSchema → List (String × JsonSchema)
  | .jbool _ => []
  | .jobj _ _ p _ _ _ _ _ => p

def JsonSchema.patternPropertiesOf : JsonSchema → List (String × JsonSchema)
  | .jbool _ => []
  | .jobj _ _ _ pp _ _ _ _ => pp

def JsonSchema.additionalPropertiesOf : JsonSchema → Option JsonSchema
  | .jbool _ => none
  | .jobj _ _ _ _ ap _ _ _ => ap

def JsonSchema.allOfOf : JsonSchema → List JsonSchema
  | .jbool _ => []
  | .jobj _ _ _ _ _ ao _ _ => ao

def JsonSchema.definitionsOf : JsonSchema → List (String × JsonSchema)
  | .jbool _ => []
  | .jobj _ _ _ _ _ _ d _ => d

def JsonSchema.inferredNameOf : JsonSchema → Option String
  | .jbool _ => none
  | .jobj _ _ _ _ _ _ _ n => n

/-! ## patternProperties interpretation (src/interpreter) -/

/-- Rebuild a model with a new `patternProperties` attribute, all other
attributes unchanged. -/
def CommonModel.withPatternProperties :
    CommonModel → Option (List (String × CommonModel)) → CommonModel
  | .mk i t e p _ ap r ex, pp => .mk i t e p pp ap r ex

/-- Modelled from the spec: `CommonModel.addPatternProperty`
(CommonModel.ts is absent from the snapshot) registers the interpreted
model on the parent under the pattern, in the parent's
`patternProperties` mapping (specification sections 3 and 4.3). -/
def addPatternProperty (model : CommonModel) (pattern : String)
    (child : CommonModel) : CommonModel :=
  model.withPatternProperties
    (some (setKey (model.patternProperties.getD []) pattern child))

/-- Translation of `interpretPatternProperties`
(src/interpreter/InterpretPatternProperties.ts): a boolean schema is left
alone; otherwise every `(pattern, subschema)` entry of
`schema.patternProperties || {}` is interpreted recursively, and whenever
the recursive interpretation returns at least one model the first one is
registered on the parent model under that pattern.  The recursive
interpreter is received as a function argument, exactly as the source
receives the `Interpreter` instance. -/
def interpretPatternProperties (schema : JsonSchema) (model : CommonModel)
    (interpret : JsonSchema → List CommonModel) : CommonModel :=
  match schema with
  | .jbool _ => model
  | .jobj _ _ _ pats _ _ _ _ =>
    pats.foldl (fun m entry =>
      match interpret entry.2 with
      | [] => m
      | newModel :: _ => addPatternProperty m entry.1 newModel) model

/-! ## additionalProperties interpretation -/

/-- Rebuild a model with a new `additionalProperties` attribute, all
other attributes unchanged. -/
def CommonModel.withAdditionalProperties :
    CommonModel → Option CommonModel → CommonModel
  | .mk i t e p pp _ r ex, ap => .mk i t e p pp ap r ex

/-- Modelled from the spec: `CommonModel.addAdditionalProperty`
(CommonModel.ts is absent from the snapshot) stores the interpreted
model as the parent's `additionalProperties` (specification section 3). -/
def addAdditionalProperty (model : CommonModel) (child : CommonModel) : CommonModel :=
  model.withAdditionalProperties (some child)

/-- Modelled from the spec: `interpretAdditionalProperties`
(src/interpreter/InterpretAdditionalProperties.ts is absent from the
snapshot; only its unit tests are present).  Per the specification
(section 4.3) a missing `additionalProperties` defaults to `true`, the
value is interpreted recursively and the first resulting model is set on
the parent; per the unit tests the handler acts only when the parent
model is object-typed (`isModelObject`) and skips registration when the
recursive interpretation returns no model.  Besides the updated model,
the embedding returns the list of arguments passed to the recursive
interpreter so that non-invocation is observable, mirroring the mocked
interpreter of the unit tests. -/
def interpretAdditionalProperties (schema : JsonSchema) (model : CommonModel)
    (interpret : JsonSchema → List CommonModel) : CommonModel × List JsonSchema :=
  match schema with
  | .jbool _ => (model, [])
  | .jobj _ _ _ _ addp _ _ _ =>
    if isModelObject model then
      let argument := addp.getD (.jbool true)
      match interpret argument with
      | [] => (model, [argument])
      | newModel :: _ => (addAdditionalProperty model newModel, [argument])
    else (model, [])

/-! ## Name reflection

`JsonSchemaInputProcessor.reflectSchemaNames` is absent from the
snapshot; the definitions below are modelled from the specification
(section 4.1) and calibrated against the `reflectSchemaName()` unit test
present in the sources. -/

/-- Join a parent name and a position key with the `_` separator; an
empty parent name (the children of the root) contributes no prefix. -/
def combineName (parentName key : String) : String :=
  if parentName = "" then key else parentName ++ "_" ++ key

mutual

/-- Modelled from the spec: `JsonSchemaInputProcessor.reflectSchemaNames`
(absent from the snapshot).  Walks the schema tree; at every nameable
position it sets `x-modelgen-inferred-name` if absent, to the parent's
name joined with the position key by `_`.  The root takes the seed name
verbatim and its children are not prefixed by it; `definitions` entries
are named by their key alone; boolean schemas are skipped; a position
reached with an empty name keeps its attribute untouched
(specification sections 4.1 and 6). -/
def reflectSchemaNames (schema : JsonSchema) (name : String) (isRoot : Bool) :
    JsonSchema :=
  match schema with
  | .jbool b => .jbool b
  | .jobj ref ty props pats addp aof defs infName =>
    let assigned : Option String :=
      if isRoot ∨ name ≠ "" then
        match infName with
        | none => some name
        | some existing => some existing
      else infName
    let childBase : String := if isRoot then "" else name
    .jobj ref ty
      (reflectProperties props childBase)
      (reflectPatternProperties pats childBase 0)
      (match addp with
       | none => none
       | some s => some (reflectSchemaNames s (combineName childBase "additionalProperty") false))
      (reflectAllOf aof childBase 0)
      (reflectDefinitions defs)
      assigned

/-- Reflection of a `properties` mapping: each entry's position key is
its property name. -/
def reflectProperties (entries : List (String × JsonSchema)) (base : String) :
    List (String × JsonSchema) :=
  match entries with
  | [] => []
  | (k, s) :: t =>
    (k, reflectSchemaNames s (combineName base k) false) :: reflectProperties t base

/-- Reflection of a `patternProperties` mapping: the position key is
`pattern_property_<index>` (the sequential index, not the pattern). -/
def reflectPatternProperties (entries : List (String × JsonSchema)) (base : String)
    (index : Nat) : List (String × JsonSchema) :=
  match entries with
  | [] => []
  | (k, s) :: t =>
    (k, reflectSchemaNames s (combineName base ("pattern_property_" ++ toString index)) false)
      :: reflectPatternProperties t base (index + 1)

/-- Reflection of an `allOf` sequence: the position key is `allOf_<i>`. -/
def reflectAllOf (entries : List JsonSchema) (base : String) (index : Nat) :
    List JsonSchema :=
  match entries with
  | [] => []
  | s :: t =>
    reflectSchemaNames s (combineName base ("allOf_" ++ toString index)) false
      :: reflectAllOf t base (index + 1)

/-- Reflection of a `definitions` mapping: entries are named by their key
alone, not prefixed by the parent. -/
def reflectDefinitions (entries : List (String × JsonSchema)) :
    List (String × JsonSchema) :=
  match entries with
  | [] => []
  | (k, s) :: t => (k, reflectSchemaNames s k false) :: reflectDefinitions t

end

/-! ## Reference resolution

The reference resolver of `JsonSchemaInputProcessor` is absent from the
snapshot; the definitions below are modelled from the specification
(section 4.2) and calibrated against the circular-reference unit test
present in the sources.  Resolution of a `$ref` pointing at a definition
already being expanded on the current resolution path substitutes the
sentinel empty object schema; the measure showing termination counts the
definitions not yet on the path. -/

/-- Error kinds surfaced by the input processor (specification section 7). -/
inductive ProcessorError where
  | UnsupportedSchemaDraft
  | UnresolvedReference
  | InvalidInput
  deriving DecidableEq

/-- The in-document pointer base for `definitions` entries. -/
def definitionsPointerBase : String := "#/definitions/"

/-- Extract the definition key of an in-document `$ref` of the form
`#/definitions/<key>`; any other reference is out of scope. -/
def parseRefKey (r : String) : Option String :=
  if definitionsPointerBase.toList.isPrefixOf r.toList then
    some (r.drop definitionsPointerBase.length)
  else none

/-- The sentinel empty object schema substituted at the second encounter
of a `$ref` target on the current resolution path. -/
def sentinelSchema : JsonSchema :=
  .jobj none (some (.single "object")) [] [] none [] [] none

theorem mem_keys_of_lookupKey {α : Type} (l : List (String × α)) (k : String)
    (v : α) (h : lookupKey l k = some v) : k ∈ l.map Prod.fst := by
  induction l with
  | nil => simp [lookupKey] at h
  | cons hd t ih =>
    rw [lookupKey] at h
    by_cases hk : hd.1 = k
    · simp [hk]
    · simp [hk] at h
      simp [ih h]

theorem length_filter_le_of_imp {α : Type} (p q : α → Bool) (l : List α)
    (h : ∀ a, p a = true → q a = true) :
    (l.filter p).length ≤ (l.filter q).length := by
  rw [← List.countP_eq_length_filter, ← List.countP_eq_length_filter]
  exact List.countP_mono_left (fun a _ ha => h a ha)

theorem length_filter_notMem_cons_lt (keys path : List String) (k : String)
    (hmem : k ∈ keys) (hnp : k ∉ path) :
    (keys.filter fun x => decide (x ∉ k :: path)).length <
      (keys.filter fun x => decide (x ∉ path)).length := by
  rw [← List.countP_eq_length_filter, ← List.countP_eq_length_filter]
  obtain ⟨l₁, l₂, rfl⟩ := List.append_of_mem hmem
  have hmono1 : l₁.countP (fun x => decide (x ∉ k :: path)) ≤
      l₁.countP (fun x => decide (x ∉ path)) :=
    List.countP_mono_left (by intro x _ hx; simp at hx ⊢; exact hx.2)
  have hmono2 : l₂.countP (fun x => decide (x ∉ k :: path)) ≤
      l₂.countP (fun x => decide (x ∉ path)) :=
    List.countP_mono_left (by intro x _ hx; simp at hx ⊢; exact hx.2)
  have hcons1 : (k :: l₂).countP (fun x => decide (x ∉ k :: path)) =
      l₂.countP (fun x => decide (x ∉ k :: path)) := by
    rw [List.countP_cons]
    simp
  have hcons2 : (k :: l₂).countP (fun x => decide (x ∉ path)) =
      l₂.countP (fun x => decide (x ∉ path)) + 1 := by
    rw [List.countP_cons]
    simp [hnp]
  rw [List.countP_append, List.countP_append, hcons1, hcons2]
  omega

/-- Number of definitions whose key is not yet on the resolution path. -/
def remainingDefs (defs : List (String × JsonSchema)) (path : List String) : Nat :=
  ((defs.map Prod.fst).filter (fun k => decide (k ∉ path))).length

theorem remainingDefs_cons_lt (defs : List (String × JsonSchema)) (path : List String)
    (k : String) (hmem : k ∈ defs.map Prod.fst) (hnp : k ∉ path) :
    remainingDefs defs (k :: path) < remainingDefs defs path :=
  length_filter_notMem_cons_lt (defs.map Prod.fst) path k hmem hnp

mutual

/-- Modelled from the spec: resolution of one schema node against the
root document's `definitions` (specification section 4.2).  A node
carrying `$ref` is replaced by the resolution of the referenced subtree;
a reference whose target is already being expanded on the current path
is replaced by the sentinel empty object schema; a reference that cannot
be dereferenced fails with `UnresolvedReference`.  Nodes without `$ref`
are resolved structurally. -/
def resolveSchema (defs : List (String × JsonSchema)) (path : List String)
    (s : JsonSchema) : Except ProcessorError JsonSchema :=
  match s with
  | .jbool b => .ok (.jbool b)
  | .jobj ref ty props pats addp aof ds infName =>
    match ref with
    | some r =>
      match parseRefKey r with
      | none => .error .UnresolvedReference
      | some k =>
        if hk : k ∈ path then .ok sentinelSchema
        else
          match hlook : lookupKey defs k with
          | none => .error .UnresolvedReference
          | some target => resolveSchema defs (k :: path) target
    | none => do
      let props' ← resolveKeyedList defs path props
      let pats' ← resolveKeyedList defs path pats
      let addp' ←
        match addp with
        | none => pure none
        | some a => do
          let ra ← resolveSchema defs path a
          pure (some ra)
      let aof' ← resolveList defs path aof
      pure (.jobj none ty props' pats' addp' aof' ds infName)
termination_by (remainingDefs defs path, sizeOf s)
decreasing_by
  all_goals simp_wf
  all_goals first
    | exact Prod.Lex.left _ _
        (remainingDefs_cons_lt defs path k (mem_keys_of_lookupKey defs k target hlook) hk)
    | (apply Prod.Lex.right; simp_arith)

/-- Resolution of the entries of a keyed mapping. -/
def resolveKeyedList (defs : List (String × JsonSchema)) (path : List String)
    (l : List (String × JsonSchema)) :
    Except ProcessorError (List (String × JsonSchema)) :=
  match l with
  | [] => .ok []
  | (k, s) :: t => do
    let s' ← resolveSchema defs path s
    let t' ← resolveKeyedList defs path t
    pure ((k, s') :: t')
termination_by (remainingDefs defs path, sizeOf l)
decreasing_by
  all_goals simp_wf
  all_goals (apply Prod.Lex.right; simp_arith)

/-- Resolution of the entries of a schema sequence. -/
def resolveList (defs : List (String × JsonSchema)) (path : List String)
    (l : List JsonSchema) : Except ProcessorError (List JsonSchema) :=
  match l with
  | [] => .ok []
  | s :: t => do
    let s' ← resolveSchema defs path s
    let t' ← resolveList defs path t
    pure (s' :: t')
termination_by (remainingDefs defs path, sizeOf l)
decreasing_by
  all_goals simp_wf
  all_goals (apply Prod.Lex.right; simp_arith)

end

/-- Rebuild a schema with an empty `definitions` container. -/
def setDefinitionsEmpty : JsonSchema → JsonSchema
  | .jbool b => .jbool b
  | .jobj ref ty props pats addp aof _ infName =>
    .jobj ref ty props pats addp aof [] infName

/-- Modelled from the spec: document-level reference resolution
(specification section 4.2).  The root schema is resolved against its own
`definitions`; afterwards the `definitions` container is emptied, its
members having been inlined where referenced. -/
def resolveDocument (root : JsonSchema) : Except ProcessorError JsonSchema := do
  let r ← resolveSchema root.definitionsOf [] root
  pure (setDefinitionsEmpty r)

/-! ### Resolver stepping lemmas

One-step unfolding facts for the well-founded resolver, used to evaluate
it on concrete documents. -/

theorem resolveKeyedList_nil (defs : List (String × JsonSchema)) (path : List String) :
    resolveKeyedList defs path [] = .ok [] := by
  rw [resolveKeyedList.eq_def]

theorem resolveList_nil (defs : List (String × JsonSchema)) (path : List String) :
    resolveList defs path [] = .ok [] := by
  rw [resolveList.eq_def]

theorem resolveKeyedList_cons_ok (defs : List (String × JsonSchema)) (path : List String)
    (k : String) (s s' : JsonSchema) (t t' : List (String × JsonSchema))
    (hs : resolveSchema defs path s = .ok s')
    (ht : resolveKeyedList defs path t = .ok t') :
    resolveKeyedList defs path ((k, s) :: t) = .ok ((k, s') :: t') := by
  rw [resolveKeyedList.eq_def]
  dsimp only
  rw [hs, ht]
  rfl

theorem resolveKeyedList_cons_error (defs : List (String × JsonSchema)) (path : List String)
    (k : String) (s : JsonSchema) (t : List (String × JsonSchema)) (e : ProcessorError)
    (hs : resolveSchema defs path s = .error e) :
    resolveKeyedList defs path ((k, s) :: t) = .error e := by
  rw [resolveKeyedList.eq_def]
  dsimp only
  rw [hs]
  rfl

theorem resolveSchema_jobj_ok (defs : List (String × JsonSchema)) (path : List String)
    (ty : Option ModelType) (props pats props' pats' : List (String × JsonSchema))
    (aof aof' : List JsonSchema) (ds : List (String × JsonSchema)) (infName : Option String)
    (hp : resolveKeyedList defs path props = .ok props')
    (hpp : resolveKeyedList defs path pats = .ok pats')
    (ha : resolveList defs path aof = .ok aof') :
    resolveSchema defs path (.jobj none ty props pats none aof ds infName) =
      .ok (.jobj none ty props' pats' none aof' ds infName) := by
  rw [resolveSchema.eq_def]
  dsimp only
  rw [hp, hpp, ha]
  rfl

theorem resolveSchema_jobj_props_error (defs : List (String × JsonSchema))
    (path : List String) (ty : Option ModelType)
    (props pats : List (String × JsonSchema)) (aof : List JsonSchema)
    (ds : List (String × JsonSchema)) (infName : Option String) (e : ProcessorError)
    (hp : resolveKeyedList defs path props = .error e) :
    resolveSchema defs path (.jobj none ty props pats none aof ds infName) = .error e := by
  rw [resolveSchema.eq_def]
  dsimp only
  rw [hp]
  rfl

theorem resolveSchema_ref_sentinel (defs : List (String × JsonSchema)) (path : List String)
    (r k : String) (ty : Option ModelType) (props pats : List (String × JsonSchema))
    (addp : Option JsonSchema) (aof : List JsonSchema) (ds : List (String × JsonSchema))
    (infName : Option String)
    (hparse : parseRefKey r = some k) (hk : k ∈ path) :
    resolveSchema defs path (.jobj (some r) ty props pats addp aof ds infName) =
      .ok sentinelSchema := by
  rw [resolveSchema.eq_def]
  dsimp only
  rw [hparse]
  dsimp only
  rw [dif_pos hk]

theorem resolveSchema_ref_follow (defs : List (String × JsonSchema)) (path : List String)
    (r k : String) (target : JsonSchema) (ty : Option ModelType)
    (props pats : List (String × JsonSchema)) (addp : Option JsonSchema)
    (aof : List JsonSchema) (ds : List (String × JsonSchema)) (infName : Option String)
    (hparse : parseRefKey r = some k) (hk : k ∉ path)
    (hfound : lookupKey defs k = some target) :
    resolveSchema defs path (.jobj (some r) ty props pats addp aof ds infName) =
      resolveSchema defs (k :: path) target := by
  rw [resolveSchema.eq_def]
  dsimp only
  rw [hparse]
  dsimp only
  rw [dif_neg hk]
  split
  · rename_i heq
    rw [heq] at hfound
    cases hfound
  · rename_i t heq
    rw [heq] at hfound
    cases hfound
    rfl

theorem resolveSchema_ref_missing (defs : List (String × JsonSchema)) (path : List String)
    (r k : String) (ty : Option ModelType) (props pats : List (String × JsonSchema))
    (addp : Option JsonSchema) (aof : List JsonSchema) (ds : List (String × JsonSchema))
    (infName : Option String)
    (hparse : parseRefKey r = some k) (hk : k ∉ path)
    (hmiss : lookupKey defs k = none) :
    resolveSchema defs path (.jobj (some r) ty props pats addp aof ds infName) =
      .error .UnresolvedReference := by
  rw [resolveSchema.eq_def]
  dsimp only
  rw [hparse]
  dsimp only
  rw [dif_neg hk]
  split
  · rfl
  · rename_i t heq
    rw [heq] at hmiss
    cases hmiss

/-! ## Input processor

`JsonSchemaInputProcessor` is absent from the snapshot; `shouldProcess`
and `process` are modelled from the specification (sections 4.5, 6 and 7)
and calibrated against the processor unit tests present in the sources. -/

/-- An arbitrary JSON value handed to the input processor: an object
(with an optional `$schema` attribute and its schema content) or some
non-object value. -/
inductive ProcessorInput where
  | objInput (schemaField : Option String) (schema : JsonSchema)
  | nonObjectInput

/-- The schema drafts the processor supports (currently draft-07). -/
def supportedSchemaDrafts : List String :=
  ["http://json-schema.org/draft-07/schema#"]

/-- Modelled from the spec: `JsonSchemaInputProcessor.shouldProcess`
(specification section 6): true iff the input is an object with no
`$schema` or with `$schema` naming a supported draft. -/
def shouldProcess : ProcessorInput → Bool
  | .objInput none _ => true
  | .objInput (some draft) _ => supportedSchemaDrafts.contains draft
  | .nonObjectInput => false

/-- Modelled from the spec: `JsonSchemaInputProcessor.process`
(specification sections 4.5 and 7).  A non-object input fails with
`InvalidInput`; an object whose `$schema` names an unsupported draft
fails with `UnsupportedSchemaDraft`; otherwise the schema is
name-reflected with the seed name `root` and reference-resolved, failing
with `UnresolvedReference` when a reference cannot be dereferenced.
The returned value is the resolved schema document from which the
interpreter and simplifier (absent from the snapshot and outside the
claims on the error pipeline) derive the model map; an error return
means the pipeline aborted and no model map is produced. -/
def process (input : ProcessorInput) : Except ProcessorError JsonSchema :=
  match input with
  | .nonObjectInput => .error .InvalidInput
  | .objInput schemaField schema =>
    if shouldProcess (.objInput schemaField schema) then
      resolveDocument (reflectSchemaNames schema "root" true)
    else .error .UnsupportedSchemaDraft

/-! ## Concrete calibration documents -/

/-- A `$ref` node pointing at `#/definitions/address`. -/
def addressRefNode : JsonSchema :=
  .jobj (some "#/definitions/address") none [] [] none [] [] none

/-- The `address` definition of the circular calibration document: an
object whose `floor` property refers back to the definition itself. -/
def addressDefNode : JsonSchema :=
  .jobj none (some (.single "object")) [("floor", addressRefNode)] [] none [] [] none

/-- The circular calibration document: `street_address` refers to
`definitions.address`, which refers to itself through `floor`. -/
def circularDoc : JsonSchema :=
  .jobj none none [("street_address", addressRefNode)] [] none []
    [("address", addressDefNode)] none

/-- The expected resolution of `circularDoc`: the cycle is broken by the
sentinel empty object schema at `floor`, and `definitions` is emptied. -/
def circularResolved : JsonSchema :=
  .jobj none none
    [("street_address",
      .jobj none (some (.single "object")) [("floor", sentinelSchema)] [] none [] [] none)]
    [] none [] [] none

/-- A document whose `street_address` property carries a `$ref` with no
matching definition. -/
def unresolvableDoc : JsonSchema :=
  .jobj none none [("street_address", addressRefNode)] [] none [] [] none

/-! ## Theorems -/

/-- C1 counterexample: on a schema carrying both `$id` and `title`,
`interpretName` returns the `title`, not the `$id` the claim's
precedence order would select. -/
theorem claim_C1_counterexample :
    interpretName (.nobj (some "TheTitle") (some "TheId") none) = some "TheTitle" ∧
    interpretNameIdFirst (.nobj (some "TheTitle") (some "TheId") none) = some "TheId" ∧
    interpretName (.nobj (some "TheTitle") (some "TheId") none) ≠
      interpretNameIdFirst (.nobj (some "TheTitle") (some "TheId") none) := by
  refine ⟨rfl, rfl, ?_⟩
  simp [interpretName, interpretNameIdFirst, jsOrString]

/-- C1 (amended): the name `interpretName` chooses follows the
precedence `title` first, then `$id`, then `x-modelgen-inferred-name`,
where an attribute that is absent or the empty string is passed over and
the extension attribute is returned as-is; a boolean schema yields no
name. -/
theorem claim_C1 :
    (∀ b, interpretName (.nbool b) = none) ∧
    ∀ title id infName, interpretName (.nobj title id infName) =
      if title = none ∨ title = some "" then
        (if id = none ∨ id = some "" then infName else id)
      else title := by
  refine ⟨fun _ => rfl, fun title id infName => ?_⟩
  rcases title with _ | t <;> rcases id with _ | i <;>
    simp only [interpretName, jsOrString] <;> split_ifs <;> simp_all

/-- A model whose `type` is the single-element array `[object]` and
which carries none of the four object attributes. -/
def modelOnlyTypedObject : CommonModel :=
  .mk none (some (.arr ["object"])) none none none none none none

/-- C2 counterexample: a model whose `type` includes `object` but which
has none of `properties`, `extend`, `patternProperties`,
`additionalProperties` is classified by the source's `isModelObject` as
an object model, while the claim classifies it as a simple model. -/
theorem claim_C2_counterexample :
    isModelObject modelOnlyTypedObject = true ∧
    claimedObjectModel modelOnlyTypedObject = false := by
  constructor <;> rfl

/-- C2 (amended): `isModelObject` classifies a model as an object model
iff its `type` is present, is not a seven-entry array, and includes
`object` (element membership for an array type, substring containment
for a single string type); the presence of `properties`, `extend`,
`patternProperties` or `additionalProperties` is not consulted. -/
theorem claim_C2 :
    ∀ m : CommonModel, isModelObject m = true ↔
      ∃ ty, m.type = some ty ∧ isSevenEntryArray ty = false ∧
        typeIncludes ty "object" = true := by
  intro m
  rcases hm : m.type with _ | ty
  · simp [isModelObject, hm]
  · by_cases h7 : isSevenEntryArray ty = true
    · simp [isModelObject, hm, h7]
    · have h7' : isSevenEntryArray ty = false := by
        rwa [Bool.not_eq_true] at h7
      simp [isModelObject, hm, h7']

/-- C4: a model whose `type` array consists of the full seven JSON types
is not an object model (`isModelObject` is `false`) and in particular is
never extracted as an object sub-model, `object` membership
notwithstanding. -/
theorem claim_C4 (m : CommonModel) (ts : List String)
    (htype : m.type = some (.arr ts)) (hperm : ts.Perm sevenJsonTypes) :
    isModelObject m = false ∧ extractedAsObjectSubModel m = false := by
  have hlen : ts.length = 7 := by
    have h := hperm.length_eq
    simpa [sevenJsonTypes] using h
  have h7 : isSevenEntryArray (.arr ts) = true := by simp [isSevenEntryArray, hlen]
  constructor
  · simp [isModelObject, htype, h7]
  · simp [extractedAsObjectSubModel, isModelObject, htype, h7]

/-- A model typed with the full seven JSON types. -/
def modelAllSevenTypes : CommonModel :=
  .mk none (some (.arr sevenJsonTypes)) none none none none none none

/-- C4 witness at the model typed by the seven-type array itself. -/
theorem claim_C4_witness :
    isModelObject modelAllSevenTypes = false ∧
    extractedAsObjectSubModel modelAllSevenTypes = false :=
  claim_C4 modelAllSevenTypes sevenJsonTypes rfl (List.Perm.refl _)

/-- C5: `inferTypeFromValue` agrees with JavaScript `typeof` on every
JSON-legal value except that arrays map to `array`, `null` maps to
`null`, and big integers map to `integer` (each constructor of the value
domain is covered). -/
theorem claim_C5 :
    (∀ l, inferTypeFromValue (.varray l) = "array") ∧
    inferTypeFromValue .vnull = "null" ∧
    inferTypeFromValue .vbigint = "integer" ∧
    (∀ b, inferTypeFromValue (.vboolean b) = jsTypeof (.vboolean b)) ∧
    inferTypeFromValue .vnumber = jsTypeof .vnumber ∧
    (∀ s, inferTypeFromValue (.vstring s) = jsTypeof (.vstring s)) ∧
    (∀ fs, inferTypeFromValue (.vobject fs) = jsTypeof (.vobject fs)) := by
  refine ⟨fun l => rfl, rfl, rfl, fun b => rfl, rfl, fun s => rfl, fun fs => rfl⟩

/-- Whether a model's `type` includes the `object` tag (with the
source's `includes` semantics); `false` when `type` is absent. -/
def modelTypeIncludesObject (m : CommonModel) : Bool :=
  match m.type with
  | some ty => typeIncludes ty "object"
  | none => false

theorem isModelObject_eq_false_of_not_includes (m : CommonModel)
    (h : modelTypeIncludesObject m = false) : isModelObject m = false := by
  unfold modelTypeIncludesObject at h
  unfold isModelObject
  rcases hm : m.type with _ | ty
  · rfl
  · rw [hm] at h
    have h' : typeIncludes ty "object" = false := h
    show (if isSevenEntryArray ty = true then false else typeIncludes ty "object") = false
    by_cases h7 : isSevenEntryArray ty = true
    · simp [h7]
    · simp [h7, h']

/-- C10: when the parent model's `type` does not include `object`, the
additionalProperties handler changes nothing: the model is returned
untouched and the recursive interpreter is never invoked (the recorded
argument list is empty), for every schema, including the absent case
that would otherwise default to `true`. -/
theorem claim_C10 (schema : JsonSchema) (m : CommonModel)
    (f : JsonSchema → List CommonModel) (h : modelTypeIncludesObject m = false) :
    interpretAdditionalProperties schema m f = (m, []) := by
  have hobj : isModelObject m = false := isModelObject_eq_false_of_not_includes m h
  cases schema with
  | jbool b => rfl
  | jobj ref ty props pats addp aof defs infName =>
    simp [interpretAdditionalProperties, hobj]

/-- A string-typed model, as in the calibration unit test. -/
def stringTypedModel : CommonModel :=
  .mk none (some (.single "string")) none none none none none none

/-- The empty object schema value `{}` handed to the handler. -/
def emptySchemaObj : JsonSchema := .jobj none none [] [] none [] [] none

/-- C10 witness: the handler on the empty schema and a string-typed
model returns the model unchanged and records no interpreter call. -/
theorem claim_C10_witness :
    interpretAdditionalProperties emptySchemaObj stringTypedModel
      (fun _ => [stringTypedModel]) = (stringTypedModel, []) :=
  claim_C10 emptySchemaObj stringTypedModel (fun _ => [stringTypedModel]) (by decide)

/-! ### patternProperties lemmas -/

theorem lookupKey_setKey_self {α : Type} (l : List (String × α)) (k : String) (v : α) :
    lookupKey (setKey l k v) k = some v := by
  induction l with
  | nil => simp [setKey, lookupKey]
  | cons hd t ih =>
    by_cases hk : hd.1 = k
    · simp [setKey, hk, lookupKey]
    · simp [setKey, hk, lookupKey, ih]

theorem lookupKey_setKey_ne {α : Type} (l : List (String × α)) (k p : String) (v : α)
    (h : p ≠ k) : lookupKey (setKey l k v) p = lookupKey l p := by
  have hkp : ¬(k = p) := fun he => h he.symm
  induction l with
  | nil =>
    simp [setKey, lookupKey, hkp]
  | cons hd t ih =>
    by_cases hk : hd.1 = k
    · subst hk
      simp [setKey, lookupKey, hkp]
    · simp [setKey, hk, lookupKey, ih]

/-- The single fold step of `interpretPatternProperties`. -/
def patternStep (f : JsonSchema → List CommonModel)
    (m : CommonModel) (entry : String × JsonSchema) : CommonModel :=
  match f entry.2 with
  | [] => m
  | newModel :: _ => addPatternProperty m entry.1 newModel

theorem interpretPatternProperties_jobj (ref : Option String) (ty : Option ModelType)
    (props pats : List (String × JsonSchema)) (addp : Option JsonSchema)
    (aof : List JsonSchema) (defs : List (String × JsonSchema))
    (infName : Option String) (m : CommonModel) (f : JsonSchema → List CommonModel) :
    interpretPatternProperties (.jobj ref ty props pats addp aof defs infName) m f =
      pats.foldl (patternStep f) m := by
  rfl

theorem withPatternProperties_patternStep (f : JsonSchema → List CommonModel)
    (m : CommonModel) (entry : String × JsonSchema) :
    (patternStep f m entry).withPatternProperties none =
      m.withPatternProperties none := by
  unfold patternStep
  cases f entry.2 with
  | nil => rfl
  | cons c rest =>
    cases m with
    | mk i t e p pp ap r ex => rfl

theorem withPatternProperties_foldl (f : JsonSchema → List CommonModel)
    (pats : List (String × JsonSchema)) (m : CommonModel) :
    ((pats.foldl (patternStep f) m).withPatternProperties none) =
      m.withPatternProperties none := by
  induction pats generalizing m with
  | nil => rfl
  | cons hd t ih =>
    rw [List.foldl_cons, ih, withPatternProperties_patternStep]

theorem patternProperties_patternStep_lookup_ne (f : JsonSchema → List CommonModel)
    (m : CommonModel) (entry : String × JsonSchema) (p : String) (hne : p ≠ entry.1) :
    lookupKey ((patternStep f m entry).patternProperties.getD []) p =
      lookupKey (m.patternProperties.getD []) p := by
  unfold patternStep
  cases f entry.2 with
  | nil => rfl
  | cons c rest =>
    cases m with
    | mk i t e pr pp ap r ex =>
      simp [addPatternProperty, CommonModel.withPatternProperties,
        CommonModel.patternProperties, lookupKey_setKey_ne _ _ _ _ hne]

theorem patternProperties_foldl_lookup_notMem (f : JsonSchema → List CommonModel)
    (pats : List (String × JsonSchema)) (m : CommonModel) (p : String)
    (hp : p ∉ pats.map Prod.fst) :
    lookupKey ((pats.foldl (patternStep f) m).patternProperties.getD []) p =
      lookupKey (m.patternProperties.getD []) p := by
  induction pats generalizing m with
  | nil => rfl
  | cons hd t ih =>
    rw [List.map_cons, List.mem_cons] at hp
    push_neg at hp
    rw [List.foldl_cons, ih _ hp.2,
      patternProperties_patternStep_lookup_ne f m hd p hp.1]

theorem patternProperties_foldl_lookup (f : JsonSchema → List CommonModel)
    (pats : List (String × JsonSchema)) (m : CommonModel) (p : String) (s : JsonSchema)
    (hnd : (pats.map Prod.fst).Nodup) (hmem : (p, s) ∈ pats) :
    lookupKey ((pats.foldl (patternStep f) m).patternProperties.getD []) p =
      (match f s with
       | [] => lookupKey (m.patternProperties.getD []) p
       | c :: _ => some c) := by
  induction pats generalizing m with
  | nil => cases hmem
  | cons hd t ih =>
    rw [List.map_cons, List.nodup_cons] at hnd
    rcases List.mem_cons.mp hmem with heq | hmemt
    · have hp : p = hd.1 := by rw [← heq]
      subst hp
      have hs : s = hd.2 := by
        have h2 := congrArg Prod.snd heq
        simpa using h2
      subst hs
      rw [List.foldl_cons,
        patternProperties_foldl_lookup_notMem f t (patternStep f m hd) hd.1 hnd.1]
      unfold patternStep
      cases hf : f hd.2 with
      | nil => rfl
      | cons c rest =>
        cases m with
        | mk i t' e pr pp ap r ex =>
          simp [addPatternProperty, CommonModel.withPatternProperties,
            CommonModel.patternProperties, lookupKey_setKey_self]
    · have hpne : p ≠ hd.1 := by
        intro hcontra
        apply hnd.1
        rw [← hcontra]
        exact List.mem_map_of_mem Prod.fst hmemt
      rw [List.foldl_cons, ih (patternStep f m hd) hnd.2 hmemt]
      cases hf : f s with
      | nil =>
        simp only
        rw [patternProperties_patternStep_lookup_ne f m hd p hpne]
      | cons c rest => rfl

/-- C9: interpreting `patternProperties` leaves a boolean schema's model
unchanged; on an object schema it only touches the `patternProperties`
attribute of the model, and (for distinct patterns) each entry whose
recursive interpretation returns at least one model ends up registered
under its pattern with the first returned model, while an entry whose
interpretation returns no model leaves that pattern's registration as it
was. -/
theorem claim_C9 :
    (∀ b m f, interpretPatternProperties (.jbool b) m f = m) ∧
    (∀ ref ty props pats addp aof defs infName (m : CommonModel)
        (f : JsonSchema → List CommonModel),
      (interpretPatternProperties (.jobj ref ty props pats addp aof defs infName) m f).withPatternProperties none =
        m.withPatternProperties none ∧
      ((pats.map Prod.fst).Nodup → ∀ p s, (p, s) ∈ pats →
        lookupKey ((interpretPatternProperties (.jobj ref ty props pats addp aof defs infName) m f).patternProperties.getD []) p =
          (match f s with
           | [] => lookupKey (m.patternProperties.getD []) p
           | c :: _ => some c))) := by
  refine ⟨fun b m f => rfl, fun ref ty props pats addp aof defs infName m f => ⟨?_, ?_⟩⟩
  · rw [interpretPatternProperties_jobj, withPatternProperties_foldl]
  · intro hnd p s hmem
    rw [interpretPatternProperties_jobj]
    exact patternProperties_foldl_lookup f pats m p s hnd hmem

/-- A model carrying the identifier `registered`. -/
def registeredModel : CommonModel :=
  .mk (some "registered") none none none none none none none

/-- Empty model used as the parent in the C9 witness. -/
def emptyParentModel : CommonModel :=
  .mk none none none none none none none none

/-- The interpretation function of the C9 witness: the boolean schema
`true` interprets to one model, everything else to none. -/
def witnessInterpret : JsonSchema → List CommonModel
  | .jbool true => [registeredModel]
  | _ => []

/-- C9 witness: on a schema with two pattern entries, the entry whose
interpretation yields a model is registered under its pattern with the
first returned model; the entry whose interpretation yields nothing
stays unregistered. -/
theorem claim_C9_witness :
    lookupKey ((interpretPatternProperties
        (.jobj none none [] [("^a", .jbool true), ("^b", .jbool false)] none [] [] none)
        emptyParentModel witnessInterpret).patternProperties.getD []) "^a" =
      some registeredModel ∧
    lookupKey ((interpretPatternProperties
        (.jobj none none [] [("^a", .jbool true), ("^b", .jbool false)] none [] [] none)
        emptyParentModel witnessInterpret).patternProperties.getD []) "^b" =
      lookupKey (emptyParentModel.patternProperties.getD []) "^b" := by
  have h := (claim_C9.2 none none [] [("^a", .jbool true), ("^b", .jbool false)]
    none [] [] none emptyParentModel witnessInterpret).2 (by simp)
  constructor
  · have ha := h "^a" (.jbool true) (by simp)
    simpa [witnessInterpret] using ha
  · have hb := h "^b" (.jbool false) (by simp)
    simpa [witnessInterpret] using hb

/-! ### Processor and resolver theorems -/

/-- The unsupported draft URI of the calibration unit test. -/
def draft99 : String := "http://json-schema.org/draft-99/schema#"

/-- C6: an input whose `$schema` names draft-99 is rejected by
`shouldProcess` and makes `process` fail with `UnsupportedSchemaDraft`;
in general `shouldProcess` accepts exactly the object inputs whose
`$schema` is absent or names a supported draft. -/
theorem claim_C6 :
    shouldProcess (.objInput (some draft99) emptySchemaObj) = false ∧
    process (.objInput (some draft99) emptySchemaObj) =
      .error .UnsupportedSchemaDraft ∧
    ∀ input, shouldProcess input = true ↔
      ∃ schemaField schema, input = .objInput schemaField schema ∧
        (schemaField = none ∨
          ∃ d, schemaField = some d ∧ d ∈ supportedSchemaDrafts) := by
  have hdraft : shouldProcess (.objInput (some draft99) emptySchemaObj) = false := by
    simp [shouldProcess, supportedSchemaDrafts, draft99]
  refine ⟨hdraft, ?_, ?_⟩
  · simp [process, hdraft]
  · intro input
    cases input with
    | nonObjectInput => simp [shouldProcess]
    | objInput sf s =>
      cases sf with
      | none => simp [shouldProcess]
      | some d => simp [shouldProcess, List.elem_iff]

/-- The in-document reference of the calibration documents, parsed. -/
theorem parseRefKey_address : parseRefKey "#/definitions/address" = some "address" := by
  decide

/-- Evaluation of the pipeline's resolution stage on the document with
the dangling `$ref`: reflection names the nodes, then resolution fails
on the absent `address` definition. -/
theorem resolveDocument_reflect_unresolvable :
    resolveDocument (reflectSchemaNames unresolvableDoc "root" true) =
      .error .UnresolvedReference := by
  have hreflect : reflectSchemaNames unresolvableDoc "root" true =
      .jobj none none
        [("street_address",
          .jobj (some "#/definitions/address") none [] [] none [] [] (some "street_address"))]
        [] none [] [] (some "root") := by
    simp [unresolvableDoc, addressRefNode, reflectSchemaNames, reflectProperties,
      reflectPatternProperties, reflectAllOf, reflectDefinitions, combineName]
  have hchild : resolveSchema [] []
      (.jobj (some "#/definitions/address") none [] [] none [] [] (some "street_address")) =
      .error .UnresolvedReference :=
    resolveSchema_ref_missing _ _ _ "address" _ _ _ _ _ _ _ parseRefKey_address
      (by simp) rfl
  have hkeyed : resolveKeyedList [] []
      [("street_address",
        .jobj (some "#/definitions/address") none [] [] none [] [] (some "street_address"))] =
      .error .UnresolvedReference :=
    resolveKeyedList_cons_error _ _ _ _ _ _ hchild
  have hroot : resolveSchema [] []
      (.jobj none none
        [("street_address",
          .jobj (some "#/definitions/address") none [] [] none [] [] (some "street_address"))]
        [] none [] [] (some "root")) = .error .UnresolvedReference :=
    resolveSchema_jobj_props_error _ _ _ _ _ _ _ _ _ hkeyed
  rw [hreflect]
  unfold resolveDocument
  rw [show (JsonSchema.definitionsOf
    (.jobj none none
      [("street_address",
        .jobj (some "#/definitions/address") none [] [] none [] [] (some "street_address"))]
      [] none [] [] (some "root"))) = [] from rfl, hroot]
  rfl

/-- C7: a `$ref` that cannot be dereferenced within the document aborts
the pipeline: whenever resolution of the reflected schema fails, that
error (and no model map) is what `process` returns, and on the concrete
document with a dangling reference the error kind is
`UnresolvedReference`. -/
theorem claim_C7 :
    (∀ schema e,
      resolveDocument (reflectSchemaNames schema "root" true) = .error e →
      process (.objInput none schema) = .error e) ∧
    process (.objInput none unresolvableDoc) = .error .UnresolvedReference := by
  have habort : ∀ schema e,
      resolveDocument (reflectSchemaNames schema "root" true) = .error e →
      process (.objInput none schema) = .error e := by
    intro schema e h
    simpa [process, shouldProcess] using h
  exact ⟨habort,
    habort unresolvableDoc .UnresolvedReference resolveDocument_reflect_unresolvable⟩

/-- C7 witness: the abort property applied to the concrete document with
the dangling `$ref`, its resolution failure evaluated. -/
theorem claim_C7_witness :
    process (.objInput none unresolvableDoc) = .error .UnresolvedReference :=
  claim_C7.1 unresolvableDoc .UnresolvedReference resolveDocument_reflect_unresolvable

theorem reflectProperties_eq_map (l : List (String × JsonSchema)) (base : String) :
    reflectProperties l base =
      l.map (fun e => (e.1, reflectSchemaNames e.2 (combineName base e.1) false)) := by
  induction l with
  | nil => simp [reflectProperties]
  | cons hd t ih => simp [reflectProperties, ih]

theorem reflectDefinitions_eq_map (l : List (String × JsonSchema)) :
    reflectDefinitions l =
      l.map (fun e => (e.1, reflectSchemaNames e.2 e.1 false)) := by
  induction l with
  | nil => simp [reflectDefinitions]
  | cons hd t ih => simp [reflectDefinitions, ih]

/-- The type-object inner schema of the inferred-naming calibration. -/
def innerObjSchema : JsonSchema :=
  .jobj none (some (.single "object")) [] [] none [] [] none

/-- `outer`, holding `inner` as a property. -/
def outerSchema : JsonSchema :=
  .jobj none none [("inner", innerObjSchema)] [] none [] [] none

/-- The nested calibration document
`properties.outer.properties.inner`. -/
def nestedRootSchema : JsonSchema :=
  .jobj none none [("outer", outerSchema)] [] none [] [] none

/-- Evaluation of the name reflector on the nested calibration document
seeded at `root`: the root takes the seed verbatim, `outer` is named by
its key alone (not `root_outer`), and `inner` is named `outer_inner`. -/
theorem reflect_nested_calibration :
    reflectSchemaNames nestedRootSchema "root" true =
      .jobj none none
        [("outer", .jobj none none
          [("inner",
            .jobj none (some (.single "object")) [] [] none [] [] (some "outer_inner"))]
          [] none [] [] (some "outer"))]
        [] none [] [] (some "root") := by
  simp [reflectSchemaNames, nestedRootSchema, outerSchema, innerObjSchema,
    reflectProperties, reflectPatternProperties, reflectAllOf, reflectDefinitions,
    combineName]

/-- C8 counterexample: on the nested calibration document seeded at
`root`, the root's inferred name is `root`, yet its child at
`properties[outer]` (which lacked the extension attribute) is named
`outer` — not the concatenation `root_outer` the claim's rule
prescribes for a non-definitions position. -/
theorem claim_C8_counterexample :
    (reflectSchemaNames nestedRootSchema "root" true).inferredNameOf = some "root" ∧
    ((reflectSchemaNames nestedRootSchema "root" true).propertiesOf.map
      (fun e => (e.1, e.2.inferredNameOf))) = [("outer", some "outer")] ∧
    some "outer" ≠ some ("root" ++ "_" ++ "outer") := by
  refine ⟨?_, ?_, by decide⟩
  · rw [reflect_nested_calibration]
    rfl
  · rw [reflect_nested_calibration]
    rfl

/-- C8 (amended): a subschema without `x-modelgen-inferred-name` at a
`properties` position of a non-root parent is named by the parent's name
and the property key joined with an underscore; `definitions` entries
are named by their key alone, and the children of the root are likewise
named by their position key alone — the root takes the seed name
verbatim but does not prefix it onto its children.  On the nested
calibration document seeded at `root`, the inner model's inferred name
is `outer_inner`. -/
theorem claim_C8 :
    (∀ ref ty props pats addp aof defs p, p ≠ "" →
      (reflectSchemaNames (.jobj ref ty props pats addp aof defs none) p false).inferredNameOf =
        some p ∧
      (reflectSchemaNames (.jobj ref ty props pats addp aof defs none) p false).propertiesOf =
        props.map (fun e => (e.1, reflectSchemaNames e.2 (p ++ "_" ++ e.1) false)) ∧
      (reflectSchemaNames (.jobj ref ty props pats addp aof defs none) p false).definitionsOf =
        defs.map (fun e => (e.1, reflectSchemaNames e.2 e.1 false))) ∧
    (∀ ref ty props pats addp aof defs seed,
      (reflectSchemaNames (.jobj ref ty props pats addp aof defs none) seed true).inferredNameOf =
        some seed ∧
      (reflectSchemaNames (.jobj ref ty props pats addp aof defs none) seed true).propertiesOf =
        props.map (fun e => (e.1, reflectSchemaNames e.2 e.1 false))) ∧
    reflectSchemaNames nestedRootSchema "root" true =
      .jobj none none
        [("outer", .jobj none none
          [("inner",
            .jobj none (some (.single "object")) [] [] none [] [] (some "outer_inner"))]
          [] none [] [] (some "outer"))]
        [] none [] [] (some "root") := by
  refine ⟨?_, ?_, reflect_nested_calibration⟩
  · intro ref ty props pats addp aof defs p hp
    have hunfold : reflectSchemaNames (.jobj ref ty props pats addp aof defs none) p false =
        .jobj ref ty (reflectProperties props p) (reflectPatternProperties pats p 0)
          (match addp with
           | none => none
           | some s => some (reflectSchemaNames s (combineName p "additionalProperty") false))
          (reflectAllOf aof p 0) (reflectDefinitions defs) (some p) := by
      rw [reflectSchemaNames.eq_def]
      simp [hp]
    refine ⟨?_, ?_, ?_⟩
    · rw [hunfold]
      rfl
    · rw [hunfold]
      show reflectProperties props p =
        props.map (fun e => (e.1, reflectSchemaNames e.2 (p ++ "_" ++ e.1) false))
      rw [reflectProperties_eq_map]
      simp [combineName, hp]
    · rw [hunfold]
      show reflectDefinitions defs =
        defs.map (fun e => (e.1, reflectSchemaNames e.2 e.1 false))
      rw [reflectDefinitions_eq_map]
  · intro ref ty props pats addp aof defs seed
    have hunfold : reflectSchemaNames (.jobj ref ty props pats addp aof defs none) seed true =
        .jobj ref ty (reflectProperties props "") (reflectPatternProperties pats "" 0)
          (match addp with
           | none => none
           | some s => some (reflectSchemaNames s (combineName "" "additionalProperty") false))
          (reflectAllOf aof "" 0) (reflectDefinitions defs) (some seed) := by
      rw [reflectSchemaNames.eq_def]
      simp
    constructor
    · rw [hunfold]
      rfl
    · rw [hunfold]
      show reflectProperties props "" =
        props.map (fun e => (e.1, reflectSchemaNames e.2 e.1 false))
      rw [reflectProperties_eq_map]
      simp [combineName]

/-- C8 witness: the general naming rule applied at parent name `outer`
over the property `inner` and an empty `definitions`. -/
theorem claim_C8_witness :
    (reflectSchemaNames (.jobj none none [("inner", innerObjSchema)] [] none [] [] none)
        "outer" false).inferredNameOf = some "outer" ∧
    (reflectSchemaNames (.jobj none none [("inner", innerObjSchema)] [] none [] [] none)
        "outer" false).propertiesOf =
      [("inner", reflectSchemaNames innerObjSchema ("outer" ++ "_" ++ "inner") false)] ∧
    (reflectSchemaNames (.jobj none none [("inner", innerObjSchema)] [] none [] [] none)
        "outer" false).definitionsOf = [] := by
  have h := claim_C8.1 none none [("inner", innerObjSchema)] [] none [] [] "outer"
    (by decide)
  simpa using h

/-- Evaluation of document resolution on the circular calibration
document: the second encounter of the `address` target yields the
sentinel empty object schema at `floor`. -/
theorem resolveDocument_circular :
    resolveDocument circularDoc = .ok circularResolved := by
  have hdefs : circularDoc.definitionsOf = [("address", addressDefNode)] := rfl
  have h2 : resolveSchema [("address", addressDefNode)] ["address"] addressRefNode =
      .ok sentinelSchema :=
    resolveSchema_ref_sentinel _ _ _ _ _ _ _ _ _ _ _ parseRefKey_address
      (List.mem_cons_self _ _)
  have h3 : resolveKeyedList [("address", addressDefNode)] ["address"]
      [("floor", addressRefNode)] = .ok [("floor", sentinelSchema)] :=
    resolveKeyedList_cons_ok _ _ _ _ _ _ _ h2 (resolveKeyedList_nil _ _)
  have h4 : resolveSchema [("address", addressDefNode)] ["address"] addressDefNode =
      .ok (.jobj none (some (.single "object")) [("floor", sentinelSchema)] [] none [] [] none) :=
    resolveSchema_jobj_ok _ _ _ _ _ _ _ _ _ _ _ h3 (resolveKeyedList_nil _ _)
      (resolveList_nil _ _)
  have h5 : resolveSchema [("address", addressDefNode)] [] addressRefNode =
      .ok (.jobj none (some (.single "object")) [("floor", sentinelSchema)] [] none [] [] none) :=
    (resolveSchema_ref_follow [("address", addressDefNode)] [] "#/definitions/address"
      "address" addressDefNode none [] [] none [] [] none parseRefKey_address
      (by simp) (by simp [lookupKey])).trans h4
  have h6 : resolveKeyedList [("address", addressDefNode)] []
      [("street_address", addressRefNode)] =
      .ok [("street_address",
        .jobj none (some (.single "object")) [("floor", sentinelSchema)] [] none [] [] none)] :=
    resolveKeyedList_cons_ok _ _ _ _ _ _ _ h5 (resolveKeyedList_nil _ _)
  have h7 : resolveSchema [("address", addressDefNode)] [] circularDoc =
      .ok (.jobj none none
        [("street_address",
          .jobj none (some (.single "object")) [("floor", sentinelSchema)] [] none [] [] none)]
        [] none [] [("address", addressDefNode)] none) :=
    resolveSchema_jobj_ok _ _ _ _ _ _ _ _ _ _ _ h6 (resolveKeyedList_nil _ _)
      (resolveList_nil _ _)
  unfold resolveDocument
  rw [hdefs, h7]
  rfl

/-- C3: resolution terminates on every document, cyclic or not
(`resolveDocument` is a total function); every successful resolution
leaves an emptied `definitions` container, and the circular calibration
document resolves with the sentinel empty object schema substituted at
the second encounter of the `address` target. -/
theorem claim_C3 :
    (∀ root r, resolveDocument root = .ok r → r.definitionsOf = []) ∧
    resolveDocument circularDoc = .ok circularResolved := by
  constructor
  · intro root r h
    unfold resolveDocument at h
    cases hres : resolveSchema root.definitionsOf [] root with
    | error e => simp [hres, bind, Except.bind] at h
    | ok v =>
      simp only [hres, bind, Except.bind, pure, Except.pure, Except.ok.injEq] at h
      cases v <;> simp [← h, setDefinitionsEmpty, JsonSchema.definitionsOf]
  · exact resolveDocument_circular

/-- C3 witness: the emptied-definitions property applied to the circular
calibration document and its computed resolution. -/
theorem claim_C3_witness : circularResolved.definitionsOf = [] :=
  claim_C3.1 circularDoc circularResolved claim_C3.2

end GeneratorModelSdk
